import Mathlib

/-!
Verification of the pricing and calibration engine of the deskview backend.

The Python sources `black_scholes_adapter.py` and `heston_adapter.py` are
shallowly embedded over exact real arithmetic: Python floats become real
numbers, `scipy.stats.norm.cdf` becomes the Gaussian integral `normCdf`,
complex NumPy arithmetic becomes `Complex` arithmetic, fallible paths become
`Option`/`Except`, and the external SciPy numerical routines that the
adapters call (`scipy.optimize.brentq` and `scipy.optimize.minimize`) are
parameters constrained only by their documented contracts, as are the
Gauss-Legendre quadrature nodes produced by `numpy.polynomial.legendre.leggauss`.
-/

open MeasureTheory Set Filter intervalIntegral
open scoped Classical

noncomputable section

namespace DeskView

/-- Standard normal density, the function `scipy.stats.norm.pdf`. -/
def normPdf (x : ℝ) : ℝ := (Real.sqrt (2 * Real.pi))⁻¹ * Real.exp (-(x ^ 2) / 2)

/-- Standard normal cumulative distribution, the function `scipy.stats.norm.cdf`. -/
def normCdf (x : ℝ) : ℝ := ∫ t in Iic x, normPdf t

lemma normPdf_pos (x : ℝ) : 0 < normPdf x := by
  have h2π : (0:ℝ) < 2 * Real.pi := by positivity
  exact mul_pos (inv_pos.mpr (Real.sqrt_pos.mpr h2π)) (Real.exp_pos _)

lemma normPdf_nonneg (x : ℝ) : 0 ≤ normPdf x := (normPdf_pos x).le

lemma normPdf_eq (x : ℝ) :
    normPdf x = (Real.sqrt (2 * Real.pi))⁻¹ * Real.exp (-(1/2) * x ^ 2) := by
  unfold normPdf
  rw [show -(x ^ 2) / 2 = -(1/2) * x ^ 2 by ring]

lemma continuous_normPdf : Continuous normPdf := by
  unfold normPdf
  continuity

lemma integrable_normPdf : Integrable normPdf := by
  have h : Integrable fun x : ℝ => Real.exp (-(1/2) * x ^ 2) :=
    integrable_exp_neg_mul_sq (by norm_num)
  exact (h.const_mul (Real.sqrt (2 * Real.pi))⁻¹).congr
    (Eventually.of_forall fun x => (normPdf_eq x).symm)

lemma integral_normPdf : ∫ t, normPdf t = 1 := by
  have hg : ∫ x : ℝ, Real.exp (-(1/2) * x ^ 2) = Real.sqrt (Real.pi / (1/2)) :=
    integral_gaussian (1/2)
  calc ∫ t, normPdf t
      = ∫ t, (Real.sqrt (2 * Real.pi))⁻¹ * Real.exp (-(1/2) * t ^ 2) :=
        integral_congr_ae (Eventually.of_forall fun x => normPdf_eq x)
    _ = (Real.sqrt (2 * Real.pi))⁻¹ * ∫ t, Real.exp (-(1/2) * t ^ 2) := integral_mul_left _ _
    _ = 1 := by
        rw [hg, show Real.pi / (1/2) = 2 * Real.pi by ring]
        have hpos : (0:ℝ) < Real.sqrt (2 * Real.pi) := Real.sqrt_pos.mpr (by positivity)
        field_simp

lemma normPdf_even (x : ℝ) : normPdf (-x) = normPdf x := by
  unfold normPdf
  rw [show (-x) ^ 2 = x ^ 2 by ring]

lemma normCdf_neg_eq_Ioi (x : ℝ) : normCdf (-x) = ∫ t in Ioi x, normPdf t := by
  have h := integral_comp_neg_Iic (-x) normPdf
  rw [neg_neg] at h
  unfold normCdf
  rw [← h]
  exact integral_congr_ae (Eventually.of_forall fun t => (normPdf_even t).symm)

lemma normCdf_add_neg (x : ℝ) : normCdf x + normCdf (-x) = 1 := by
  rw [normCdf_neg_eq_Ioi]
  unfold normCdf
  rw [integral_Iic_add_Ioi integrable_normPdf.integrableOn integrable_normPdf.integrableOn]
  exact integral_normPdf

lemma normCdf_nonneg (x : ℝ) : 0 ≤ normCdf x :=
  setIntegral_nonneg measurableSet_Iic fun t _ => normPdf_nonneg t

lemma normCdf_le_one (x : ℝ) : normCdf x ≤ 1 := by
  have h := normCdf_add_neg x
  have h2 := normCdf_nonneg (-x)
  linarith

lemma normCdf_mono {a b : ℝ} (hab : a ≤ b) : normCdf a ≤ normCdf b := by
  unfold normCdf
  exact setIntegral_mono_set integrable_normPdf.integrableOn
    (Eventually.of_forall fun t => normPdf_nonneg t)
    (HasSubset.Subset.eventuallyLE (Iic_subset_Iic.mpr hab))

lemma normCdf_strict_mono {a b : ℝ} (hab : a < b) : normCdf a < normCdf b := by
  have hdiff : normCdf b - normCdf a = ∫ t in a..b, normPdf t :=
    integral_Iic_sub_Iic integrable_normPdf.integrableOn integrable_normPdf.integrableOn
  have hpos : 0 < ∫ t in a..b, normPdf t :=
    intervalIntegral_pos_of_pos (continuous_normPdf.intervalIntegrable a b) normPdf_pos hab
  linarith

lemma normCdf_zero : normCdf 0 = 1/2 := by
  have h := normCdf_add_neg 0
  rw [neg_zero] at h
  linarith

lemma normCdf_pos (x : ℝ) : 0 < normCdf x :=
  lt_of_le_of_lt (normCdf_nonneg (x - 1)) (normCdf_strict_mono (by linarith))

lemma normCdf_lt_one (x : ℝ) : normCdf x < 1 := by
  have h := normCdf_add_neg x
  have h2 := normCdf_pos (-x)
  linarith

/-- Closed form for the exponential integral over a left ray, used for the
Gaussian tail bound. -/
lemma integral_exp_mul_Iic {c : ℝ} (hc : 0 < c) (a : ℝ) :
    ∫ t in Iic a, Real.exp (c * t) = Real.exp (c * a) / c := by
  have h1 : ∫ t in Iic a, Real.exp (c * t) = ∫ t in Ioi (-a), Real.exp (-(c * t)) := by
    have h := integral_comp_neg_Iic a fun x => Real.exp (-(c * x))
    rw [← h]
    refine integral_congr_ae (Eventually.of_forall fun t => ?_)
    show Real.exp (c * t) = Real.exp (-(c * -t))
    rw [show -(c * -t) = c * t by ring]
  have h2 : ∫ t in Ioi (-a), Real.exp (-(c * t)) = c⁻¹ • ∫ t in Ioi (c * -a), Real.exp (-t) :=
    integral_comp_mul_left_Ioi (fun y => Real.exp (-y)) (-a) hc
  rw [h1, h2, integral_exp_neg_Ioi, smul_eq_mul, show -(c * -a) = c * a by ring]
  ring

lemma integrableOn_exp_mul_Iic {c : ℝ} (hc : 1 ≤ c) (a : ℝ) :
    IntegrableOn (fun t => Real.exp (c * t)) (Iic a) := by
  have hdom : IntegrableOn (fun t => Real.exp ((c - 1) * a) * Real.exp t) (Iic a) :=
    (integrableOn_exp_Iic a).const_mul _
  refine Integrable.mono hdom
    ((Real.continuous_exp.comp (continuous_const.mul continuous_id)).aestronglyMeasurable) ?_
  rw [ae_restrict_iff' measurableSet_Iic]
  refine Eventually.of_forall fun t ht => ?_
  have h1 : c * t ≤ (c - 1) * a + t := by nlinarith [mem_Iic.mp ht]
  have h2 : Real.exp (c * t) ≤ Real.exp ((c - 1) * a) * Real.exp t := by
    rw [← Real.exp_add]
    exact Real.exp_le_exp.mpr h1
  simpa [Real.norm_eq_abs, abs_of_pos (Real.exp_pos _),
    abs_of_pos (mul_pos (Real.exp_pos ((c - 1) * a)) (Real.exp_pos t))] using h2

/-- Chernoff-style tail bound for the Gaussian cumulative distribution:
for any multiplier `c ≥ 1`, `normCdf a` is at most
`exp (c^2/2 + c*a) / (c * sqrt (2*pi))`. -/
lemma normCdf_le_exp_bound {c : ℝ} (hc : 1 ≤ c) (a : ℝ) :
    normCdf a ≤ Real.exp (c ^ 2 / 2 + c * a) / (c * Real.sqrt (2 * Real.pi)) := by
  have hc0 : (0:ℝ) < c := lt_of_lt_of_le one_pos hc
  have hsq : (0:ℝ) < Real.sqrt (2 * Real.pi) := Real.sqrt_pos.mpr (by positivity)
  have hpt : ∀ t ∈ Iic a, normPdf t ≤
      (Real.sqrt (2 * Real.pi))⁻¹ * Real.exp (c ^ 2 / 2) * Real.exp (c * t) := by
    intro t _
    unfold normPdf
    rw [mul_assoc, ← Real.exp_add]
    refine mul_le_mul_of_nonneg_left ?_ (by positivity)
    refine Real.exp_le_exp.mpr ?_
    nlinarith [sq_nonneg (c + t)]
  have hint : IntegrableOn
      (fun t => (Real.sqrt (2 * Real.pi))⁻¹ * Real.exp (c ^ 2 / 2) * Real.exp (c * t))
      (Iic a) := (integrableOn_exp_mul_Iic hc a).const_mul _
  have hle := setIntegral_mono_on integrable_normPdf.integrableOn hint measurableSet_Iic hpt
  calc normCdf a ≤ ∫ t in Iic a,
        (Real.sqrt (2 * Real.pi))⁻¹ * Real.exp (c ^ 2 / 2) * Real.exp (c * t) := hle
    _ = (Real.sqrt (2 * Real.pi))⁻¹ * Real.exp (c ^ 2 / 2) * (Real.exp (c * a) / c) := by
        rw [← integral_exp_mul_Iic hc0 a]
        exact integral_mul_left _ _
    _ = Real.exp (c ^ 2 / 2 + c * a) / (c * Real.sqrt (2 * Real.pi)) := by
        rw [Real.exp_add]
        field_simp
        ring

lemma sqrt_two_pi_gt : (5/2 : ℝ) < Real.sqrt (2 * Real.pi) := by
  rw [Real.lt_sqrt (by norm_num)]
  nlinarith [Real.pi_gt_3141592]

lemma sqrt_two_pi_pos : (0:ℝ) < Real.sqrt (2 * Real.pi) := by
  linarith [sqrt_two_pi_gt]

lemma exp_half_sq : Real.exp (1/2) ^ 2 = Real.exp 1 := by
  rw [sq, ← Real.exp_add]
  norm_num

lemma exp_half_lt : Real.exp (1/2) < 1.6488 := by
  refine lt_of_pow_lt_pow_left 2 (by norm_num) ?_
  rw [exp_half_sq]
  nlinarith [Real.exp_one_lt_d9]

lemma exp_half_gt : (1.648 : ℝ) < Real.exp (1/2) := by
  refine lt_of_pow_lt_pow_left 2 (Real.exp_pos _).le ?_
  rw [exp_half_sq]
  nlinarith [Real.exp_one_gt_d9]

lemma exp_52_lt_13 : Real.exp (5/2) < 13 := by
  have h : Real.exp (5/2) = Real.exp 1 * Real.exp 1 * Real.exp (1/2) := by
    rw [← Real.exp_add, ← Real.exp_add]
    norm_num
  nlinarith [Real.exp_one_lt_d9, exp_half_lt, Real.exp_pos 1, Real.exp_pos (1/2),
    Real.exp_one_gt_d9, exp_half_gt]

lemma exp_92_gt_87 : (87:ℝ) < Real.exp (9/2) := by
  have h : Real.exp (9/2) = Real.exp 1 * Real.exp 1 * Real.exp 1 * Real.exp 1 * Real.exp (1/2) := by
    rw [← Real.exp_add, ← Real.exp_add, ← Real.exp_add, ← Real.exp_add]
    norm_num
  have he := Real.exp_one_gt_d9
  have h2 : (7.389 : ℝ) < Real.exp 1 * Real.exp 1 := by nlinarith
  have h4 : (54.59 : ℝ) < Real.exp 1 * Real.exp 1 * (Real.exp 1 * Real.exp 1) := by nlinarith
  nlinarith [exp_half_gt, Real.exp_pos (1/2)]

/-- Numeric lower bound on `exp ((509/60)^2 / 2)`, where `509/60` is the
Black-Scholes `d1` arising in the implied-vol endpoint construction. -/
lemma exp_259081_7200_gt : (4e11 : ℝ) < Real.exp (259081/7200) := by
  have h1 : (1 + 259081/460800 : ℝ) ≤ Real.exp (259081/460800) := by
    linarith [Real.add_one_le_exp (259081/460800 : ℝ)]
  have h2 : ((1 : ℝ) + 259081/460800) ^ 64 ≤ Real.exp (259081/460800) ^ 64 :=
    pow_le_pow_left (by norm_num) h1 64
  have h3 : Real.exp (259081/460800) ^ 64 = Real.exp (259081/7200) := by
    rw [← Real.exp_nat_mul]
    norm_num
  have h4 : (4e11 : ℝ) < ((1 : ℝ) + 259081/460800) ^ 64 := by norm_num
  linarith

/-- `normPdf (509/60) < 1e-12`: the Black-Scholes vega at the endpoint
construction input is below the Newton-Raphson breakout threshold. -/
lemma normPdf_509_60_lt : normPdf (509/60) < 1e-12 := by
  unfold normPdf
  have harg : -((509/60 : ℝ) ^ 2) / 2 = -(259081/7200) := by norm_num
  rw [harg]
  have h1 : ((2:ℝ)/5) * ((4e11 : ℝ))⁻¹ = 1e-12 := by norm_num
  rw [← h1]
  have hsq : (Real.sqrt (2 * Real.pi))⁻¹ < 2/5 := by
    rw [show (2:ℝ)/5 = (5/2 : ℝ)⁻¹ by norm_num]
    exact inv_lt_inv_of_lt (by norm_num) sqrt_two_pi_gt
  have hexp : Real.exp (-(259081/7200)) < ((4e11 : ℝ))⁻¹ := by
    rw [Real.exp_neg]
    exact inv_lt_inv_of_lt (by norm_num) exp_259081_7200_gt
  have h2 : (0:ℝ) < Real.exp (-(259081/7200)) := Real.exp_pos _
  have h3 : (0:ℝ) < (Real.sqrt (2 * Real.pi))⁻¹ := inv_pos.mpr sqrt_two_pi_pos
  nlinarith

/-- `normCdf (-3) < 1/600`, via the tail bound with multiplier `c = 3`. -/
lemma normCdf_neg_three_lt : normCdf (-3) < 1/600 := by
  have h := normCdf_le_exp_bound (c := 3) (by norm_num) (-3)
  have harg : (3:ℝ) ^ 2 / 2 + 3 * (-3) = -(9/2) := by norm_num
  rw [harg] at h
  have hexp : Real.exp (-(9/2)) < 1/87 := by
    rw [Real.exp_neg, show (1/87 : ℝ) = ((87:ℝ))⁻¹ by norm_num]
    exact inv_lt_inv_of_lt (by norm_num) exp_92_gt_87
  have hden : (15/2 : ℝ) < 3 * Real.sqrt (2 * Real.pi) := by nlinarith [sqrt_two_pi_gt]
  have hpos : (0:ℝ) < 3 * Real.sqrt (2 * Real.pi) := by nlinarith [sqrt_two_pi_pos]
  have h2 : Real.exp (-(9/2)) / (3 * Real.sqrt (2 * Real.pi)) < (1/87) / (15/2) := by
    apply div_lt_div hexp hden.le (by positivity) (by norm_num)
  calc normCdf (-3) ≤ Real.exp (-(9/2)) / (3 * Real.sqrt (2 * Real.pi)) := h
    _ < (1/87) / (15/2) := h2
    _ < 1/600 := by norm_num

lemma exp_neg_52_gt : (1/13 : ℝ) < Real.exp (-(5/2)) := by
  rw [Real.exp_neg]
  have h13 : (0:ℝ) < Real.exp (5/2) := Real.exp_pos _
  rw [show (1/13 : ℝ) = (13 : ℝ)⁻¹ by norm_num]
  exact inv_lt_inv_of_lt h13 exp_52_lt_13

lemma exp_neg_52_lt_one : Real.exp (-(5/2)) < 1 := by
  apply Real.exp_lt_one_iff.mpr
  norm_num

/-- Option type, the `OptionType` enum of `option_contract.py` (also the
`option_type` string argument of `bs_implied_vol`). -/
inductive OptType where
  | call : OptType
  | put : OptType
deriving DecidableEq

/-- `_bs_call` from `heston_adapter.py`: Black-Scholes call price, with the
degenerate branch returning intrinsic value. -/
def bs_call (S K T r q sigma : ℝ) : ℝ :=
  if T ≤ 0 ∨ sigma ≤ 0 then max (S * Real.exp (-q * T) - K * Real.exp (-r * T)) 0
  else
    let d1 := (Real.log (S / K) + (r - q + (1/2) * sigma ^ 2) * T) / (sigma * Real.sqrt T)
    let d2 := d1 - sigma * Real.sqrt T
    S * Real.exp (-q * T) * normCdf d1 - K * Real.exp (-r * T) * normCdf d2

/-- `_bs_vega` from `heston_adapter.py`. -/
def bs_vega (S K T r q sigma : ℝ) : ℝ :=
  if T ≤ 0 ∨ sigma ≤ 0 then 0
  else
    let d1 := (Real.log (S / K) + (r - q + (1/2) * sigma ^ 2) * T) / (sigma * Real.sqrt T)
    S * Real.exp (-q * T) * normPdf d1 * Real.sqrt T

/-- The 25-iteration Newton-Raphson loop inside `bs_implied_vol`, with the
iteration count as explicit fuel.  `some sigma` corresponds to the loop
hitting its `return` statement; `none` models both the `v < 1e-12` break and
falling off the end of the loop, after which control reaches the Brent
fallback. -/
def newtonLoop (S K T r q price : ℝ) : ℕ → ℝ → Option ℝ
  | 0, _ => none
  | fuel + 1, sigma =>
    let p := bs_call S K T r q sigma
    let v := bs_vega S K T r q sigma
    if v < 1e-12 then none
    else
      let step := (p - price) / v
      let sigma1 := min (max (sigma - step) 1e-4) 10
      if |step| < 1e-9 ∧ 0.001 ≤ sigma1 ∧ sigma1 ≤ 5 then some sigma1
      else newtonLoop S K T r q price fuel sigma1

/-- Contract of the external root finder `scipy.optimize.brentq` as called by
`bs_implied_vol`: on a bracket `[a, b]` with `a ≤ b`, a successful call
returns a point of the bracket.  `none` models the exception path caught by
the surrounding `try`. -/
def BrentqSpec (brentq : (ℝ → ℝ) → ℝ → ℝ → Option ℝ) : Prop :=
  ∀ f a b x, a ≤ b → brentq f a b = some x → a ≤ x ∧ x ≤ b

/-- `bs_implied_vol` from `heston_adapter.py`, parameterized by the external
root finder used in the Brent fallback. -/
def bs_implied_vol (brentq : (ℝ → ℝ) → ℝ → ℝ → Option ℝ)
    (price S K T r q : ℝ) (option_type : OptType) : Option ℝ :=
  if T ≤ 0 then none
  else
    let price1 := if option_type = OptType.put
      then price + S * Real.exp (-q * T) - K * Real.exp (-r * T) else price
    let intrinsic := max (S * Real.exp (-q * T) - K * Real.exp (-r * T)) 0
    let upper := S * Real.exp (-q * T)
    if price1 ≤ intrinsic + 1e-9 ∨ upper ≤ price1 then none
    else
      match newtonLoop S K T r q price1 25 0.3 with
      | some sigma => some sigma
      | none =>
        let f := fun s => bs_call S K T r q s - price1
        if 0 < f 0.001 * f 5 then none
        else
          match brentq f 0.001 5 with
          | none => none
          | some sigma => if 0.001 ≤ sigma ∧ sigma ≤ 5 then some sigma else none

lemma newtonLoop_some_bounds (S K T r q price : ℝ) :
    ∀ fuel sigma0 sigma, newtonLoop S K T r q price fuel sigma0 = some sigma →
      0.001 ≤ sigma ∧ sigma ≤ 5 := by
  intro fuel
  induction fuel with
  | zero =>
    intro s0 s h
    simp [newtonLoop] at h
  | succ n ih =>
    intro s0 s h
    simp only [newtonLoop] at h
    split at h
    · exact absurd h (by simp)
    · split at h
      next hcond =>
        rw [Option.some.injEq] at h
        exact ⟨h ▸ hcond.2.1, h ▸ hcond.2.2⟩
      next => exact ih _ _ h

lemma bs_call_special :
    bs_call 1 1 1 (5/2) 0 5 = normCdf 3 - Real.exp (-(5/2)) * normCdf (-2) := by
  simp only [bs_call]
  rw [if_neg (by norm_num)]
  norm_num [Real.log_one, Real.sqrt_one, Real.exp_zero]

lemma bs_vega_special : bs_vega 1 1 1 (5/2) 0 0.3 = normPdf (509/60) := by
  simp only [bs_vega]
  rw [if_neg (by norm_num)]
  norm_num [Real.log_one, Real.sqrt_one, Real.exp_zero]

lemma price0_lower :
    max (1 - Real.exp (-(5/2))) 0 + 1e-9 < bs_call 1 1 1 (5/2) 0 5 := by
  rw [bs_call_special, max_eq_left (by linarith [exp_neg_52_lt_one])]
  have h3 : normCdf 3 = 1 - normCdf (-3) := by linarith [normCdf_add_neg 3]
  have h2 : normCdf (-2) = 1 - normCdf 2 := by linarith [normCdf_add_neg 2]
  have hc2 : (1/2 : ℝ) ≤ normCdf 2 := by
    rw [← normCdf_zero]
    exact normCdf_mono (by norm_num)
  have hepos := Real.exp_pos (-(5/2))
  have hm : Real.exp (-(5/2)) * (1/2) ≤ Real.exp (-(5/2)) * normCdf 2 :=
    mul_le_mul_of_nonneg_left hc2 hepos.le
  rw [h3, h2]
  have he := exp_neg_52_gt
  have hc3 := normCdf_neg_three_lt
  nlinarith

lemma price0_upper : bs_call 1 1 1 (5/2) 0 5 < 1 := by
  rw [bs_call_special]
  have h1 := normCdf_le_one 3
  have h2 : 0 < Real.exp (-(5/2)) * normCdf (-2) := mul_pos (Real.exp_pos _) (normCdf_pos _)
  linarith

lemma newtonLoop_special :
    newtonLoop 1 1 1 (5/2) 0 (bs_call 1 1 1 (5/2) 0 5) 25 0.3 = none := by
  have hv : bs_vega 1 1 1 (5/2) 0 0.3 < 1e-12 := by
    rw [bs_vega_special]
    exact normPdf_509_60_lt
  rw [show (25:ℕ) = 24 + 1 from rfl]
  simp only [newtonLoop]
  rw [if_pos hv]

/-- Root-finder instance returning the right endpoint of the bracket.  At the
input of `bs_implied_vol_endpoint` the bracket function has the exact root
`5.0` at the right endpoint (the observed price is, by construction, the
Black-Scholes price at volatility `5.0`), and SciPy's `brentq` returns an
endpoint root exactly, so this instance agrees with the real root finder at
that input. -/
def brentqHi : (ℝ → ℝ) → ℝ → ℝ → Option ℝ := fun _ _ b => some b

lemma brentqHi_spec : BrentqSpec brentqHi := by
  intro f a b x hab h
  simp only [brentqHi, Option.some.injEq] at h
  exact ⟨h ▸ hab, h ▸ le_refl b⟩

/-- At observed price `bs_call 1 1 1 (5/2) 0 5` with `S = K = T = 1`,
`r = 5/2`, `q = 0`, the solver's Newton loop breaks on its first iteration
(vega below `1e-12`), the Brent bracket check passes because the bracket
function vanishes at `5.0`, and the root finder returns the endpoint root
`5.0`, which the final range check accepts. -/
lemma bs_implied_vol_endpoint :
    bs_implied_vol brentqHi (bs_call 1 1 1 (5/2) 0 5) 1 1 1 (5/2) 0 OptType.call = some 5 := by
  simp only [bs_implied_vol]
  rw [if_neg (show ¬ (1:ℝ) ≤ 0 by norm_num)]
  rw [if_neg (show ¬ OptType.call = OptType.put by simp)]
  rw [if_neg ?guard]
  case guard =>
    push_neg
    constructor
    · have h := price0_lower
      norm_num [Real.exp_zero] at h ⊢
      linarith
    · have h := price0_upper
      norm_num [Real.exp_zero]
      linarith
  rw [newtonLoop_special]
  simp only
  rw [if_neg ?bracket]
  case bracket =>
    rw [sub_self, mul_zero]
    exact lt_irrefl 0
  simp only [brentqHi]
  rw [if_pos (by norm_num)]

/-- `_heston_integrand` from `heston_adapter.py` (Albrecher et al. 2007
"little trap" formulation) at a single quadrature node `phi`.  The NumPy
complex operations become `Complex` arithmetic: `np.sqrt` on a complex
argument is the principal square root `cpow (1/2)`, `np.log` on a complex
argument is the principal `Complex.log`, while `np.log(S / K)` is a real
logarithm because `S` and `K` are floats. -/
def heston_integrand (phi S K T r q v0 kappa theta sigma_v rho : ℝ) (j : ℕ) : ℝ :=
  let i : ℂ := Complex.I
  let φ : ℂ := (phi : ℂ)
  let u_j : ℂ := if j = 1 then 1/2 else -(1/2)
  let b_j : ℂ := if j = 1 then ((kappa - rho * sigma_v : ℝ) : ℂ) else ((kappa : ℝ) : ℂ)
  let a : ℂ := ((kappa * theta : ℝ) : ℂ)
  let d : ℂ := ((((rho * sigma_v : ℝ) : ℂ) * i * φ - b_j) ^ 2
      - ((sigma_v : ℝ) : ℂ) ^ 2 * (2 * i * u_j * φ - φ ^ 2)) ^ ((1 : ℂ)/2)
  let num_g : ℂ := b_j - ((rho * sigma_v : ℝ) : ℂ) * i * φ - d
  let den_g : ℂ := b_j - ((rho * sigma_v : ℝ) : ℂ) * i * φ + d
  let g : ℂ := num_g / den_g
  let exp_neg_dT : ℂ := Complex.exp (-d * (T : ℂ))
  let denom : ℂ := 1 - g * exp_neg_dT
  let D : ℂ := num_g / ((sigma_v : ℝ) : ℂ) ^ 2 * (1 - exp_neg_dT) / denom
  let C : ℂ := (r : ℂ) * i * φ * (T : ℂ)
      + a / ((sigma_v : ℝ) : ℂ) ^ 2 * (num_g * (T : ℂ) - 2 * Complex.log (denom / (1 - g)))
  let f_j : ℂ := Complex.exp (C + D * (v0 : ℂ) + i * φ * ((Real.log (S / K) : ℝ) : ℂ))
  (f_j / (i * φ)).re

/-- `HestonAdapter._P`: transform probability `P_j` by Gauss-Legendre
quadrature.  The node and weight lists are the constructor-precomputed
`self._phi` and `self._w`; they are parameters of the embedding because
`numpy.polynomial.legendre.leggauss` is an external routine. -/
def hestonP (nodes weights : List ℝ) (S K T r q v0 kappa theta sigma_v rho : ℝ) (j : ℕ) : ℝ :=
  1/2 + (List.zipWith
    (fun w x => w * heston_integrand x S K T r q v0 kappa theta sigma_v rho j)
    weights nodes).sum / Real.pi

/-- The intrinsic-value floor `max(S*e^{-qT} - K*e^{-rT}, 0)` used throughout
`HestonAdapter.price_call`. -/
def intrinsicCall (S K T r q : ℝ) : ℝ :=
  max (S * Real.exp (-q * T) - K * Real.exp (-r * T)) 0

/-- `HestonAdapter.price_call`.  The flag `quadFail = true` models the
`except` branch: an exception raised while evaluating the quadrature, which
the method converts to the intrinsic-value floor. -/
def price_call (nodes weights : List ℝ) (S K T r q v0 kappa theta sigma_v rho : ℝ)
    (quadFail : Bool) : ℝ :=
  if T ≤ 0 then intrinsicCall S K T r q
  else if quadFail then intrinsicCall S K T r q
  else
    let P1 := hestonP nodes weights S K T r q v0 kappa theta sigma_v rho 1
    let P2 := hestonP nodes weights S K T r q v0 kappa theta sigma_v rho 2
    let raw := S * Real.exp (-q * T) * P1 - K * Real.exp (-r * T) * P2
    max raw (intrinsicCall S K T r q)

/-- `HestonAdapter.price_put`: put price via put-call parity on the computed
call price. -/
def price_put (nodes weights : List ℝ) (S K T r q v0 kappa theta sigma_v rho : ℝ)
    (quadFail : Bool) : ℝ :=
  price_call nodes weights S K T r q v0 kappa theta sigma_v rho quadFail
    + K * Real.exp (-r * T) - S * Real.exp (-q * T)

/-- `HestonAdapter.heston_iv`: Black-Scholes implied volatility of the Heston
model price, pricing the out-of-the-money side relative to the forward. -/
def heston_iv (brentq : (ℝ → ℝ) → ℝ → ℝ → Option ℝ) (nodes weights : List ℝ)
    (S K T r q v0 kappa theta sigma_v rho : ℝ) (quadFail : Bool) : Option ℝ :=
  if T ≤ 0 then none
  else
    let F := S * Real.exp ((r - q) * T)
    if F ≤ K then
      bs_implied_vol brentq
        (price_call nodes weights S K T r q v0 kappa theta sigma_v rho quadFail)
        S K T r q OptType.call
    else
      bs_implied_vol brentq
        (price_put nodes weights S K T r q v0 kappa theta sigma_v rho quadFail)
        S K T r q OptType.put

/-- A calibration market point `{K, T, iv, weight}` (the spec's
`VolatilityPoint`); `weight` is `pt.get("weight", 1.0)` already resolved. -/
structure VolPoint where
  K : ℝ
  T : ℝ
  iv : ℝ
  weight : ℝ

/-- One iteration of the loop inside the `objective` closure of
`HestonAdapter.calibrate`; the accumulator is the running `(total, n)`.
The `try/except` of the source is unreachable in the exact-real model (all
modeled operations are total, and pricing failures surface as `none` from
`heston_iv` through the intrinsic-floor fallback of `price_call`), so the
unweighted `total += 0.25` exception branch does not appear. -/
def objectiveStep (brentq : (ℝ → ℝ) → ℝ → ℝ → Option ℝ) (nodes weights : List ℝ)
    (S r q : ℝ) (quadFail : Bool) (x : ℝ × ℝ × ℝ × ℝ × ℝ)
    (acc : ℝ × ℕ) (pt : VolPoint) : ℝ × ℕ :=
  match heston_iv brentq nodes weights S pt.K pt.T r q
      x.1 x.2.1 x.2.2.1 x.2.2.2.1 x.2.2.2.2 quadFail with
  | some iv_mdl =>
    if 0.001 < iv_mdl ∧ iv_mdl < 5 then
      (acc.1 + pt.weight * (iv_mdl - pt.iv) ^ 2, acc.2 + 1)
    else (acc.1 + pt.weight * 0.25, acc.2)
  | none => (acc.1 + pt.weight * 0.25, acc.2)

/-- The `objective` closure of `HestonAdapter.calibrate`:
`total / max(n, 1)` after the loop over the market points. -/
def objective (brentq : (ℝ → ℝ) → ℝ → ℝ → Option ℝ) (nodes weights : List ℝ)
    (market_points : List VolPoint) (S r q : ℝ) (quadFail : Bool)
    (x : ℝ × ℝ × ℝ × ℝ × ℝ) : ℝ :=
  let res := market_points.foldl (objectiveStep brentq nodes weights S r q quadFail x) (0, 0)
  res.1 / ((max res.2 1 : ℕ) : ℝ)

/-- `np.median` on a list of floats: middle element of the sorted list, or
the mean of the two middle elements. -/
def median (xs : List ℝ) : ℝ :=
  let s := xs.mergeSort (fun a b => decide (a ≤ b))
  if xs.length % 2 = 1 then s.getD (xs.length / 2) 0
  else (s.getD (xs.length / 2 - 1) 0 + s.getD (xs.length / 2) 0) / 2

/-- The result dict of `HestonAdapter.calibrate`. -/
structure CalibrationResult where
  v0 : ℝ
  kappa : ℝ
  theta : ℝ
  sigma_v : ℝ
  rho : ℝ
  rmse : ℝ
  success : Bool
  n_points : ℕ

/-- The explicit insufficient-data failure (the `ValueError` raised by
`calibrate` when fewer than 5 market points are supplied). -/
inductive CalibError where
  | insufficientData (got : ℕ) : CalibError
deriving DecidableEq

/-- The L-BFGS-B bounds list that `calibrate` passes to
`scipy.optimize.minimize`. -/
def hestonBounds : List (ℝ × ℝ) :=
  [(1e-4, 0.9), (0.1, 15.0), (1e-4, 0.9), (0.05, 2.0), (-0.99, 0.99)]

/-- Contract of the external bounded optimizer (`scipy.optimize.minimize`,
method L-BFGS-B): the reported minimizer respects the closed box described
by the bounds it was given.  Only calls with `hestonBounds` occur in
`calibrate`, so the contract is stated for that bounds list. -/
def MinimizeSpec
    (minimize : ((ℝ×ℝ×ℝ×ℝ×ℝ) → ℝ) → (ℝ×ℝ×ℝ×ℝ×ℝ) → List (ℝ × ℝ) → (ℝ×ℝ×ℝ×ℝ×ℝ) × Bool) :
    Prop :=
  ∀ f x0,
    let x := (minimize f x0 hestonBounds).1
    (1e-4 ≤ x.1 ∧ x.1 ≤ 0.9) ∧ (0.1 ≤ x.2.1 ∧ x.2.1 ≤ 15) ∧
      (1e-4 ≤ x.2.2.1 ∧ x.2.2.1 ≤ 0.9) ∧ (0.05 ≤ x.2.2.2.1 ∧ x.2.2.2.1 ≤ 2) ∧
      (-0.99 ≤ x.2.2.2.2 ∧ x.2.2.2.2 ≤ 0.99)

/-- `HestonAdapter.calibrate`, parameterized by the external optimizer and
root finder.  `rmse` is `sqrt(result.fun)`, i.e. the square root of the
objective at the reported minimizer. -/
def calibrate
    (minimize : ((ℝ×ℝ×ℝ×ℝ×ℝ) → ℝ) → (ℝ×ℝ×ℝ×ℝ×ℝ) → List (ℝ × ℝ) → (ℝ×ℝ×ℝ×ℝ×ℝ) × Bool)
    (brentq : (ℝ → ℝ) → ℝ → ℝ → Option ℝ) (nodes weights : List ℝ)
    (market_points : List VolPoint) (S r q : ℝ) (quadFail : Bool) :
    Except CalibError CalibrationResult :=
  if market_points.length < 5 then
    Except.error (CalibError.insufficientData market_points.length)
  else
    let atm_iv := median (market_points.map VolPoint.iv)
    let x0 : ℝ×ℝ×ℝ×ℝ×ℝ := (atm_iv ^ 2, 2, atm_iv ^ 2, 0.4, -0.7)
    let res := minimize (objective brentq nodes weights market_points S r q quadFail)
      x0 hestonBounds
    let x := res.1
    Except.ok {
      v0 := x.1, kappa := x.2.1, theta := x.2.2.1, sigma_v := x.2.2.2.1, rho := x.2.2.2.2,
      rmse := Real.sqrt (objective brentq nodes weights market_points S r q quadFail x),
      success := res.2, n_points := market_points.length }

/-- `np.linspace a b n`: `n` evenly spaced points from `a` to `b`
inclusive. -/
def linspace (a b : ℝ) (n : ℕ) : List ℝ :=
  (List.range n).map fun i : ℕ => a + (b - a) * (i : ℝ) / ((n : ℝ) - 1)

/-- Decimal rounding `round(x, dp)` used when the surface is serialized. -/
def round_to (dp : ℕ) (x : ℝ) : ℝ := ((round (x * 10 ^ dp) : ℤ) : ℝ) / 10 ^ dp

/-- The surface dict returned by `HestonAdapter.generate_surface`. -/
structure SurfaceResult where
  strikes : List ℝ
  moneyness : List ℝ
  maturities_years : List ℝ
  implied_vols : List (List (Option ℝ))

/-- `HestonAdapter.generate_surface`. -/
def generate_surface (brentq : (ℝ → ℝ) → ℝ → ℝ → Option ℝ) (nodes weights : List ℝ)
    (S r q v0 kappa theta sigma_v rho : ℝ) (quadFail : Bool)
    (n_strikes n_maturities : ℕ) : SurfaceResult :=
  let moneyness := linspace 0.7 1.3 n_strikes
  let strikes := moneyness.map fun m => m * S
  let maturities := linspace (1/12) 2 n_maturities
  let ivs := maturities.map fun T => strikes.map fun K =>
    (heston_iv brentq nodes weights S K T r q v0 kappa theta sigma_v rho quadFail).map
      fun iv => round_to 4 (iv * 100)
  { strikes := strikes.map (round_to 2)
    moneyness := moneyness.map (round_to 4)
    maturities_years := maturities.map (round_to 4)
    implied_vols := ivs }

/-- The `Greeks` dataclass from `greeks.py`. -/
structure Greeks where
  delta : ℝ
  gamma : ℝ
  vega : ℝ
  theta : ℝ
  rho : ℝ

/-- `OptionContract` from `option_contract.py`, restricted to the fields the
pricer reads.  The underlying ticker does not enter pricing; the maturity
date enters only through the time to maturity `T` computed by
`_time_to_maturity`, which reads the wall clock (`date.today()`), so `T`
is a real-valued parameter of the embedded methods. -/
structure OptionContract where
  option_type : OptType
  strike : ℝ
  quantity : ℝ

/-- `MarketData` from `market_data.py` (the timestamp does not enter
pricing). -/
structure MarketData where
  spot : ℝ
  implied_vol : ℝ
  risk_free_rate : ℝ
  dividend_yield : ℝ

namespace BlackScholesAdapter

/-- `BlackScholesAdapter._d1`. -/
def d1 (S K T r q sigma : ℝ) : ℝ :=
  (Real.log (S / K) + (r - q + (1/2) * sigma ^ 2) * T) / (sigma * Real.sqrt T)

/-- `BlackScholesAdapter._d2`. -/
def d2 (d1v sigma T : ℝ) : ℝ := d1v - sigma * Real.sqrt T

/-- `BlackScholesAdapter.price`; `T` is the floored time to maturity. -/
def price (contract : OptionContract) (md : MarketData) (T : ℝ) : ℝ :=
  let S := md.spot
  let K := contract.strike
  let r := md.risk_free_rate
  let q := md.dividend_yield
  let sigma := md.implied_vol
  let dd1 := d1 S K T r q sigma
  let dd2 := d2 dd1 sigma T
  (if contract.option_type = OptType.call then
      S * Real.exp (-q * T) * normCdf dd1 - K * Real.exp (-r * T) * normCdf dd2
    else K * Real.exp (-r * T) * normCdf (-dd2) - S * Real.exp (-q * T) * normCdf (-dd1))
    * |contract.quantity|

/-- `BlackScholesAdapter.greeks`; `T` is the floored time to maturity. -/
def greeks (contract : OptionContract) (md : MarketData) (T : ℝ) : Greeks :=
  let S := md.spot
  let K := contract.strike
  let r := md.risk_free_rate
  let q := md.dividend_yield
  let sigma := md.implied_vol
  let dd1 := d1 S K T r q sigma
  let dd2 := d2 dd1 sigma T
  let deltaU := if contract.option_type = OptType.call then Real.exp (-q * T) * normCdf dd1
    else -(Real.exp (-q * T) * normCdf (-dd1))
  let gammaU := Real.exp (-q * T) * normPdf dd1 / (S * sigma * Real.sqrt T)
  let vegaU := S * Real.exp (-q * T) * normPdf dd1 * Real.sqrt T / 100
  let thetaU := if contract.option_type = OptType.call then
      (-(S * Real.exp (-q * T) * normPdf dd1 * sigma) / (2 * Real.sqrt T)
        - r * K * Real.exp (-r * T) * normCdf dd2
        + q * S * Real.exp (-q * T) * normCdf dd1) / 365
    else
      (-(S * Real.exp (-q * T) * normPdf dd1 * sigma) / (2 * Real.sqrt T)
        + r * K * Real.exp (-r * T) * normCdf (-dd2)
        - q * S * Real.exp (-q * T) * normCdf (-dd1)) / 365
  let rhoU := if contract.option_type = OptType.call then
      K * T * Real.exp (-r * T) * normCdf dd2 / 100
    else -(K * T * Real.exp (-r * T) * normCdf (-dd2)) / 100
  { delta := deltaU * contract.quantity
    gamma := gammaU * |contract.quantity|
    vega := vegaU * |contract.quantity|
    theta := thetaU * |contract.quantity|
    rho := rhoU * contract.quantity }

end BlackScholesAdapter

/-- Root-finder instance that always reports failure; used to instantiate
witnesses. -/
def brentqNone : (ℝ → ℝ) → ℝ → ℝ → Option ℝ := fun _ _ _ => none

lemma brentqNone_spec : BrentqSpec brentqNone := by
  intro f a b x _ h
  simp [brentqNone] at h

/-- Optimizer instance returning a fixed interior point of the box; used to
instantiate witnesses. -/
def minimizeConst :
    ((ℝ×ℝ×ℝ×ℝ×ℝ) → ℝ) → (ℝ×ℝ×ℝ×ℝ×ℝ) → List (ℝ × ℝ) → (ℝ×ℝ×ℝ×ℝ×ℝ) × Bool :=
  fun _ _ _ => ((1/100, 1, 1/100, 1/2, 0), true)

lemma minimizeConst_spec : MinimizeSpec minimizeConst := by
  intro f x0
  refine ⟨⟨?_, ?_⟩, ⟨?_, ?_⟩, ⟨?_, ?_⟩, ⟨?_, ?_⟩, ⟨?_, ?_⟩⟩ <;> norm_num [minimizeConst]

/-- Optimizer instance that reports the lower-left corner of the box.
L-BFGS-B projects its iterates onto the bounds, so an output lying exactly on
the boundary of the box is a legitimate behavior of the real routine. -/
def minimizeCorner :
    ((ℝ×ℝ×ℝ×ℝ×ℝ) → ℝ) → (ℝ×ℝ×ℝ×ℝ×ℝ) → List (ℝ × ℝ) → (ℝ×ℝ×ℝ×ℝ×ℝ) × Bool :=
  fun _ _ _ => ((1e-4, 0.1, 1e-4, 0.05, -0.99), true)

lemma minimizeCorner_spec : MinimizeSpec minimizeCorner := by
  intro f x0
  refine ⟨⟨?_, ?_⟩, ⟨?_, ?_⟩, ⟨?_, ?_⟩, ⟨?_, ?_⟩, ⟨?_, ?_⟩⟩ <;> norm_num [minimizeCorner]

/-- A generic valid market point. -/
def pt1 : VolPoint := ⟨1, 1, 1/5, 1⟩

/-- Four market points: below the calibration minimum. -/
def pts4 : List VolPoint := List.replicate 4 pt1

/-- Five market points: the calibration minimum. -/
def pts5 : List VolPoint := List.replicate 5 pt1

/-- A market point with `T = 0`, on which `heston_iv` deterministically
fails (returns `none`), independently of quadrature nodes and root finder. -/
def ptT0 : VolPoint := ⟨1, 0, 1/5, 1⟩

/-- Five such points. -/
def ptsT0 : List VolPoint := List.replicate 5 ptT0

lemma price_call_ge_intrinsic (nodes weights : List ℝ)
    (S K T r q v0 kappa theta sigma_v rho : ℝ) (quadFail : Bool) :
    intrinsicCall S K T r q
      ≤ price_call nodes weights S K T r q v0 kappa theta sigma_v rho quadFail := by
  unfold price_call
  split
  · exact le_refl _
  · split
    · exact le_refl _
    · exact le_max_right _ _

lemma price_call_fail_eq (nodes weights : List ℝ)
    (S K T r q v0 kappa theta sigma_v rho : ℝ) :
    price_call nodes weights S K T r q v0 kappa theta sigma_v rho true
      = intrinsicCall S K T r q := by
  unfold price_call
  split <;> rfl

/-- Declarative per-point contribution to the calibration objective:
weighted squared vol error when the model resolves a valid vol for the
point, else the weighted fixed penalty `w * 0.25`. -/
def pointContribution (brentq : (ℝ → ℝ) → ℝ → ℝ → Option ℝ) (nodes weights : List ℝ)
    (S r q : ℝ) (quadFail : Bool) (x : ℝ × ℝ × ℝ × ℝ × ℝ) (pt : VolPoint) : ℝ :=
  match heston_iv brentq nodes weights S pt.K pt.T r q
      x.1 x.2.1 x.2.2.1 x.2.2.2.1 x.2.2.2.2 quadFail with
  | some iv_mdl =>
    if 0.001 < iv_mdl ∧ iv_mdl < 5 then pt.weight * (iv_mdl - pt.iv) ^ 2 else pt.weight * 0.25
  | none => pt.weight * 0.25

/-- Whether the model resolves a valid vol for the point. -/
def pointResolved (brentq : (ℝ → ℝ) → ℝ → ℝ → Option ℝ) (nodes weights : List ℝ)
    (S r q : ℝ) (quadFail : Bool) (x : ℝ × ℝ × ℝ × ℝ × ℝ) (pt : VolPoint) : Bool :=
  match heston_iv brentq nodes weights S pt.K pt.T r q
      x.1 x.2.1 x.2.2.1 x.2.2.2.1 x.2.2.2.2 quadFail with
  | some iv_mdl => decide (0.001 < iv_mdl ∧ iv_mdl < 5)
  | none => false

lemma objectiveStep_eq (brentq : (ℝ → ℝ) → ℝ → ℝ → Option ℝ) (nodes weights : List ℝ)
    (S r q : ℝ) (quadFail : Bool) (x : ℝ × ℝ × ℝ × ℝ × ℝ) (acc : ℝ × ℕ) (pt : VolPoint) :
    objectiveStep brentq nodes weights S r q quadFail x acc pt
      = (acc.1 + pointContribution brentq nodes weights S r q quadFail x pt,
         acc.2 + if pointResolved brentq nodes weights S r q quadFail x pt then 1 else 0) := by
  unfold objectiveStep pointContribution pointResolved
  rcases heston_iv brentq nodes weights S pt.K pt.T r q
      x.1 x.2.1 x.2.2.1 x.2.2.2.1 x.2.2.2.2 quadFail with _ | iv_mdl
  · simp
  · by_cases hcond : 0.001 < iv_mdl ∧ iv_mdl < 5
    · simp [hcond]
    · simp [hcond]

lemma objective_foldl (brentq : (ℝ → ℝ) → ℝ → ℝ → Option ℝ) (nodes weights : List ℝ)
    (S r q : ℝ) (quadFail : Bool) (x : ℝ × ℝ × ℝ × ℝ × ℝ) :
    ∀ (pts : List VolPoint) (acc : ℝ × ℕ),
      pts.foldl (objectiveStep brentq nodes weights S r q quadFail x) acc
        = (acc.1 + (pts.map (pointContribution brentq nodes weights S r q quadFail x)).sum,
           acc.2 + pts.countP (pointResolved brentq nodes weights S r q quadFail x)) := by
  intro pts
  induction pts with
  | nil => intro acc; simp
  | cons pt rest ih =>
    intro acc
    rw [List.foldl_cons, ih, objectiveStep_eq]
    rcases acc with ⟨t, n⟩
    simp only [List.map_cons, List.sum_cons, List.countP_cons]
    rw [Prod.mk.injEq]
    constructor
    · ring
    · by_cases hres : pointResolved brentq nodes weights S r q quadFail x pt
      · simp [hres]
        omega
      · simp [hres]

/-- The calibration objective as the specification words it: the weighted
mean-squared error over the market points, a failed point contributing its
weight times the fixed penalty 0.25 instead of being discarded — so the
mean is over all market points.  (Reading "weighted mean" as normalization
by total weight instead gives the same value at the counterexample input,
whose weights are all 1.) -/
def specObjective (brentq : (ℝ → ℝ) → ℝ → ℝ → Option ℝ) (nodes weights : List ℝ)
    (market_points : List VolPoint) (S r q : ℝ) (quadFail : Bool)
    (x : ℝ × ℝ × ℝ × ℝ × ℝ) : ℝ :=
  (market_points.map (pointContribution brentq nodes weights S r q quadFail x)).sum
    / (market_points.length : ℝ)

/-- The calibration result produced by `minimizeConst` on `pts5`. -/
def resConst : CalibrationResult :=
  { v0 := 1/100, kappa := 1, theta := 1/100, sigma_v := 1/2, rho := 0,
    rmse := Real.sqrt (objective brentqNone [] [] pts5 1 0 0 false (1/100, 1, 1/100, 1/2, 0)),
    success := true, n_points := 5 }

lemma calibrate_resConst :
    calibrate minimizeConst brentqNone [] [] pts5 1 0 0 false = Except.ok resConst := by
  unfold calibrate
  rw [if_neg (by norm_num [pts5, pt1])]
  rfl

/-- The calibration result produced by `minimizeCorner` on `pts5`. -/
def resCorner : CalibrationResult :=
  { v0 := 1e-4, kappa := 0.1, theta := 1e-4, sigma_v := 0.05, rho := -0.99,
    rmse := Real.sqrt (objective brentqNone [] [] pts5 1 0 0 false (1e-4, 0.1, 1e-4, 0.05, -0.99)),
    success := true, n_points := 5 }

lemma calibrate_resCorner :
    calibrate minimizeCorner brentqNone [] [] pts5 1 0 0 false = Except.ok resCorner := by
  unfold calibrate
  rw [if_neg (by norm_num [pts5, pt1])]
  rfl

lemma heston_iv_T0 (brentq : (ℝ → ℝ) → ℝ → ℝ → Option ℝ) (nodes weights : List ℝ)
    (S K r q v0 kappa theta sigma_v rho : ℝ) (quadFail : Bool) :
    heston_iv brentq nodes weights S K 0 r q v0 kappa theta sigma_v rho quadFail = none := by
  unfold heston_iv
  rw [if_pos le_rfl]

lemma linspace_length (a b : ℝ) (n : ℕ) : (linspace a b n).length = n := by
  rw [linspace, List.length_map, List.length_range]

lemma getD_map_of_lt {α β : Type} (f : α → β) (l : List α) (i : ℕ) (dA : α) (dB : β)
    (h : i < l.length) : (l.map f).getD i dB = f (l.getD i dA) := by
  rw [List.getD_eq_getElem?_getD, List.getD_eq_getElem?_getD, List.getElem?_map,
    List.getElem?_eq_getElem h]
  simp

lemma price_call_unit (S K T r q sigma : ℝ) :
    BlackScholesAdapter.price ⟨OptType.call, K, 1⟩ ⟨S, sigma, r, q⟩ T
      = S * Real.exp (-q * T) * normCdf (BlackScholesAdapter.d1 S K T r q sigma)
        - K * Real.exp (-r * T)
          * normCdf (BlackScholesAdapter.d2 (BlackScholesAdapter.d1 S K T r q sigma) sigma T) := by
  simp [BlackScholesAdapter.price]

lemma price_put_unit (S K T r q sigma : ℝ) :
    BlackScholesAdapter.price ⟨OptType.put, K, 1⟩ ⟨S, sigma, r, q⟩ T
      = K * Real.exp (-r * T)
          * normCdf (-(BlackScholesAdapter.d2 (BlackScholesAdapter.d1 S K T r q sigma) sigma T))
        - S * Real.exp (-q * T) * normCdf (-(BlackScholesAdapter.d1 S K T r q sigma)) := by
  simp [BlackScholesAdapter.price]

/-- Claim C2: for every S>0, K>0, T, r, q and every Heston parameter vector
(and any quadrature nodes), `price_call` returns a value at least the
intrinsic floor `max(S*e^{-qT} - K*e^{-rT}, 0)`; on a numerical failure
during quadrature (the caught exception, modeled by `quadFail = true`) it
returns exactly that floor. -/
theorem C2_price_call_floor (nodes weights : List ℝ)
    (S K T r q v0 kappa theta sigma_v rho : ℝ) (hS : 0 < S) (hK : 0 < K) (quadFail : Bool) :
    intrinsicCall S K T r q
        ≤ price_call nodes weights S K T r q v0 kappa theta sigma_v rho quadFail
      ∧ (quadFail = true →
          price_call nodes weights S K T r q v0 kappa theta sigma_v rho quadFail
            = intrinsicCall S K T r q) :=
  ⟨price_call_ge_intrinsic nodes weights S K T r q v0 kappa theta sigma_v rho quadFail,
    fun hf => by
      rw [hf]
      exact price_call_fail_eq nodes weights S K T r q v0 kappa theta sigma_v rho⟩

/-- Witness for C2 at a concrete input with a quadrature failure. -/
theorem C2_price_call_floor_witness :
    intrinsicCall 1 1 1 0 0 ≤ price_call [] [] 1 1 1 0 0 (1/25) 2 (1/25) (2/5) (-(7/10)) true
      ∧ (true = true →
          price_call [] [] 1 1 1 0 0 (1/25) 2 (1/25) (2/5) (-(7/10)) true
            = intrinsicCall 1 1 1 0 0) :=
  C2_price_call_floor [] [] 1 1 1 0 0 (1/25) 2 (1/25) (2/5) (-(7/10)) one_pos one_pos true

/-- Claim C3: put-call parity for the Black-Scholes pricer at unit quantity:
call minus put equals `S*e^{-qT} - K*e^{-rT}` within 1e-8 (the identity is
exact in real arithmetic). -/
theorem C3_put_call_parity (S K T r q sigma : ℝ) (hS : 0 < S) (hK : 0 < K)
    (hT : 0 < T) (hsigma : 0 < sigma) :
    |BlackScholesAdapter.price ⟨OptType.call, K, 1⟩ ⟨S, sigma, r, q⟩ T
        - BlackScholesAdapter.price ⟨OptType.put, K, 1⟩ ⟨S, sigma, r, q⟩ T
        - (S * Real.exp (-q * T) - K * Real.exp (-r * T))| ≤ 1e-8 := by
  rw [price_call_unit, price_put_unit]
  set A := S * Real.exp (-q * T) with hA
  set B := K * Real.exp (-r * T) with hB
  set x1 := BlackScholesAdapter.d1 S K T r q sigma with hx1
  set x2 := BlackScholesAdapter.d2 (BlackScholesAdapter.d1 S K T r q sigma) sigma T with hx2
  have e1 : A * normCdf x1 + A * normCdf (-x1) = A := by
    rw [← mul_add, normCdf_add_neg, mul_one]
  have e2 : B * normCdf x2 + B * normCdf (-x2) = B := by
    rw [← mul_add, normCdf_add_neg, mul_one]
  have h0 : A * normCdf x1 - B * normCdf x2
      - (B * normCdf (-x2) - A * normCdf (-x1)) - (A - B) = 0 := by
    linarith
  rw [h0, abs_zero]
  norm_num

/-- Witness for C3 at the specification's round-trip input. -/
theorem C3_put_call_parity_witness :
    |BlackScholesAdapter.price ⟨OptType.call, 100, 1⟩ ⟨100, 1/5, 5/100, 0⟩ 1
        - BlackScholesAdapter.price ⟨OptType.put, 100, 1⟩ ⟨100, 1/5, 5/100, 0⟩ 1
        - (100 * Real.exp (-0 * 1) - 100 * Real.exp (-(5/100) * 1))| ≤ 1e-8 :=
  C3_put_call_parity 100 100 1 (5/100) 0 (1/5) (by norm_num) (by norm_num) (by norm_num)
    (by norm_num)

/-- Claim C10: the parity-derived put price is never below the put intrinsic
floor `max(K*e^{-rT} - S*e^{-qT}, 0)` (hence never negative), for any
quadrature outcome including failure. -/
theorem C10_price_put_floor (nodes weights : List ℝ)
    (S K T r q v0 kappa theta sigma_v rho : ℝ) (hS : 0 < S) (hK : 0 < K) (hT : 0 < T)
    (quadFail : Bool) :
    max (K * Real.exp (-r * T) - S * Real.exp (-q * T)) 0
      ≤ price_put nodes weights S K T r q v0 kappa theta sigma_v rho quadFail := by
  have h := price_call_ge_intrinsic nodes weights S K T r q v0 kappa theta sigma_v rho quadFail
  have h1 : S * Real.exp (-q * T) - K * Real.exp (-r * T) ≤ intrinsicCall S K T r q :=
    le_max_left _ _
  have h2 : (0:ℝ) ≤ intrinsicCall S K T r q := le_max_right _ _
  unfold price_put
  rcases le_total (K * Real.exp (-r * T) - S * Real.exp (-q * T)) 0 with h0 | h0
  · rw [max_eq_right h0]
    linarith
  · rw [max_eq_left h0]
    linarith

/-- Witness for C10 at a concrete input. -/
theorem C10_price_put_floor_witness :
    max (1 * Real.exp (-0 * 1) - 1 * Real.exp (-0 * 1)) 0
      ≤ price_put [] [] 1 1 1 0 0 (1/25) 2 (1/25) (2/5) (-(7/10)) false :=
  C10_price_put_floor [] [] 1 1 1 0 0 (1/25) 2 (1/25) (2/5) (-(7/10)) one_pos one_pos
    one_pos false

/-- Claim C1 (amended): every volatility `bs_implied_vol` returns lies in
the closed interval [0.001, 5.0] — both return sites check it explicitly —
and otherwise the result is the explicit no-solution value `none`. -/
theorem C1_solver_range (brentq : (ℝ → ℝ) → ℝ → ℝ → Option ℝ)
    (price S K T r q : ℝ) (ty : OptType) (sigma : ℝ)
    (h : bs_implied_vol brentq price S K T r q ty = some sigma) :
    0.001 ≤ sigma ∧ sigma ≤ 5 := by
  simp only [bs_implied_vol] at h
  split at h
  · exact absurd h (by simp)
  · generalize (if ty = OptType.put
        then price + S * Real.exp (-q * T) - K * Real.exp (-r * T) else price) = p1 at h
    split at h
    · exact absurd h (by simp)
    · split at h
      next s heq =>
        rw [Option.some.injEq] at h
        exact h ▸ newtonLoop_some_bounds _ _ _ _ _ _ _ _ _ heq
      next heq =>
        split at h
        · exact absurd h (by simp)
        · split at h
          next => exact absurd h (by simp)
          next s heq2 =>
            split at h
            next hcond =>
              rw [Option.some.injEq] at h
              exact h ▸ hcond
            next => exact absurd h (by simp)

/-- Witness for C1 at the endpoint input, where the solver returns `some 5`. -/
theorem C1_solver_range_witness : (0.001 : ℝ) ≤ 5 ∧ (5:ℝ) ≤ 5 :=
  C1_solver_range brentqHi (bs_call 1 1 1 (5/2) 0 5) 1 1 1 (5/2) 0 OptType.call 5
    bs_implied_vol_endpoint

/-- Claim C1 (counterexample): as stated, with the open interval
(0.001, 5.0), the claim is false.  At observed price `bs_call 1 1 1 (5/2) 0 5`
with S=K=T=1, r=5/2, q=0, call, the Newton loop breaks at once (vega below
1e-12), the bracket function vanishes at 5.0, and the solver returns exactly
5.0, which is outside the open interval. -/
theorem C1_counterexample :
    ¬ (∀ brentq, BrentqSpec brentq → ∀ price S K T r q ty sigma,
        bs_implied_vol brentq price S K T r q ty = some sigma →
          0.001 < sigma ∧ sigma < 5) := by
  intro hclaim
  have h := hclaim brentqHi brentqHi_spec (bs_call 1 1 1 (5/2) 0 5) 1 1 1 (5/2) 0 OptType.call 5
    bs_implied_vol_endpoint
  exact absurd h.2 (lt_irrefl 5)

/-- Claim C7: an observed price outside the arbitrage bounds
`intrinsic ≤ price < S*e^{-qT}` — after put-to-call parity conversion —
makes the solver return the explicit no-solution value. -/
theorem C7_arbitrage_reject (brentq : (ℝ → ℝ) → ℝ → ℝ → Option ℝ)
    (price S K T r q : ℝ) (ty : OptType)
    (h : (if ty = OptType.put
            then price + S * Real.exp (-q * T) - K * Real.exp (-r * T) else price)
          < max (S * Real.exp (-q * T) - K * Real.exp (-r * T)) 0
        ∨ S * Real.exp (-q * T)
          ≤ (if ty = OptType.put
              then price + S * Real.exp (-q * T) - K * Real.exp (-r * T) else price)) :
    bs_implied_vol brentq price S K T r q ty = none := by
  simp only [bs_implied_vol]
  split
  · rfl
  · rw [if_pos]
    rcases h with h | h
    · exact Or.inl (by linarith)
    · exact Or.inr h

/-- Witness for C7: a price above the upper no-arbitrage bound is
rejected. -/
theorem C7_arbitrage_reject_witness :
    bs_implied_vol brentqNone 2 1 1 1 0 0 OptType.call = none :=
  C7_arbitrage_reject brentqNone 2 1 1 1 0 0 OptType.call
    (Or.inr (by norm_num [Real.exp_zero]))

lemma greeks_delta_call (S K T r q sigma qty : ℝ) :
    (BlackScholesAdapter.greeks ⟨OptType.call, K, qty⟩ ⟨S, sigma, r, q⟩ T).delta
      = Real.exp (-q * T) * normCdf (BlackScholesAdapter.d1 S K T r q sigma) * qty := by
  simp [BlackScholesAdapter.greeks]

lemma greeks_delta_put (S K T r q sigma qty : ℝ) :
    (BlackScholesAdapter.greeks ⟨OptType.put, K, qty⟩ ⟨S, sigma, r, q⟩ T).delta
      = -(Real.exp (-q * T) * normCdf (-(BlackScholesAdapter.d1 S K T r q sigma))) * qty := by
  simp [BlackScholesAdapter.greeks]

/-- Claim C8 (amended): for a unit-quantity contract, the delta returned by
`greeks` lies in [0, 1] for a call and in [-1, 0] for a put, for all
S>0, K>0, q≥0, sigma>0, T>0. -/
theorem C8_delta_bounds (S K T r q sigma : ℝ) (hS : 0 < S) (hK : 0 < K) (hq : 0 ≤ q)
    (hsigma : 0 < sigma) (hT : 0 < T) :
    (0 ≤ (BlackScholesAdapter.greeks ⟨OptType.call, K, 1⟩ ⟨S, sigma, r, q⟩ T).delta ∧
        (BlackScholesAdapter.greeks ⟨OptType.call, K, 1⟩ ⟨S, sigma, r, q⟩ T).delta ≤ 1) ∧
      (-1 ≤ (BlackScholesAdapter.greeks ⟨OptType.put, K, 1⟩ ⟨S, sigma, r, q⟩ T).delta ∧
        (BlackScholesAdapter.greeks ⟨OptType.put, K, 1⟩ ⟨S, sigma, r, q⟩ T).delta ≤ 0) := by
  simp only [greeks_delta_call, greeks_delta_put]
  have hexp : Real.exp (-q * T) ≤ 1 := by
    rw [← Real.exp_zero]
    apply Real.exp_le_exp.mpr
    nlinarith
  have hexp0 : 0 < Real.exp (-q * T) := Real.exp_pos _
  set x := BlackScholesAdapter.d1 S K T r q sigma
  have h1 := normCdf_nonneg x
  have h2 := normCdf_le_one x
  have h3 := normCdf_nonneg (-x)
  have h4 := normCdf_le_one (-x)
  refine ⟨⟨?_, ?_⟩, ?_, ?_⟩ <;> nlinarith

/-- Witness for C8 (amended) at a concrete input. -/
theorem C8_delta_bounds_witness :
    (0 ≤ (BlackScholesAdapter.greeks ⟨OptType.call, 1, 1⟩ ⟨1, 1, 1, 0⟩ 1).delta ∧
        (BlackScholesAdapter.greeks ⟨OptType.call, 1, 1⟩ ⟨1, 1, 1, 0⟩ 1).delta ≤ 1) ∧
      (-1 ≤ (BlackScholesAdapter.greeks ⟨OptType.put, 1, 1⟩ ⟨1, 1, 1, 0⟩ 1).delta ∧
        (BlackScholesAdapter.greeks ⟨OptType.put, 1, 1⟩ ⟨1, 1, 1, 0⟩ 1).delta ≤ 0) :=
  C8_delta_bounds 1 1 1 1 0 1 one_pos one_pos le_rfl one_pos one_pos

/-- Claim C8 (counterexample): `greeks` scales delta by the signed contract
quantity, so a call contract with quantity 2 has delta `2 * Φ(d1) > 1` at
S=K=1, r=1, q=0, sigma=1, T=1; the claim as stated, quantifying over every
contract, is false. -/
theorem C8_counterexample :
    ¬ (∀ (c : OptionContract) (md : MarketData) (T : ℝ),
        0 < md.spot → 0 < c.strike → 0 ≤ md.dividend_yield → 0 < md.implied_vol → 0 < T →
        (c.option_type = OptType.call →
          0 ≤ (BlackScholesAdapter.greeks c md T).delta ∧
            (BlackScholesAdapter.greeks c md T).delta ≤ 1) ∧
        (c.option_type = OptType.put →
          -1 ≤ (BlackScholesAdapter.greeks c md T).delta ∧
            (BlackScholesAdapter.greeks c md T).delta ≤ 0)) := by
  intro hclaim
  have h := ((hclaim ⟨OptType.call, 1, 2⟩ ⟨1, 1, 1, 0⟩ 1 one_pos one_pos le_rfl one_pos
    one_pos).1 rfl).2
  rw [greeks_delta_call] at h
  have hd1 : BlackScholesAdapter.d1 1 1 1 1 0 1 = 3/2 := by
    unfold BlackScholesAdapter.d1
    norm_num [Real.log_one, Real.sqrt_one]
  rw [hd1] at h
  have hphi : (1/2 : ℝ) < normCdf (3/2) := by
    rw [← normCdf_zero]
    exact normCdf_strict_mono (by norm_num)
  norm_num [Real.exp_zero] at h
  linarith

/-- Claim C4: `calibrate` with fewer than 5 points fails immediately with the
explicit insufficient-data error, before the optimizer or any pricing is
invoked; with 5 or more points it returns a CalibrationResult. -/
theorem C4_insufficient_data
    (minimize : ((ℝ×ℝ×ℝ×ℝ×ℝ) → ℝ) → (ℝ×ℝ×ℝ×ℝ×ℝ) → List (ℝ × ℝ) → (ℝ×ℝ×ℝ×ℝ×ℝ) × Bool)
    (brentq : (ℝ → ℝ) → ℝ → ℝ → Option ℝ) (nodes weights : List ℝ)
    (pts : List VolPoint) (S r q : ℝ) (quadFail : Bool) :
    (pts.length < 5 → calibrate minimize brentq nodes weights pts S r q quadFail
        = Except.error (CalibError.insufficientData pts.length))
      ∧ (5 ≤ pts.length → ∃ res,
          calibrate minimize brentq nodes weights pts S r q quadFail = Except.ok res) := by
  constructor
  · intro h
    unfold calibrate
    rw [if_pos h]
  · intro h
    unfold calibrate
    rw [if_neg (not_lt.mpr h)]
    exact ⟨_, rfl⟩

/-- Witness for C4: four points are rejected, five are accepted. -/
theorem C4_insufficient_data_witness :
    (calibrate minimizeConst brentqNone [] [] pts4 1 0 0 false
        = Except.error (CalibError.insufficientData pts4.length))
      ∧ ∃ res, calibrate minimizeConst brentqNone [] [] pts5 1 0 0 false = Except.ok res :=
  ⟨(C4_insufficient_data minimizeConst brentqNone [] [] pts4 1 0 0 false).1 (by simp [pts4]),
    (C4_insufficient_data minimizeConst brentqNone [] [] pts5 1 0 0 false).2 (by simp [pts5])⟩

/-- Claim C6 (amended): every CalibrationResult returned by `calibrate`
carries Heston parameters inside the closed L-BFGS-B box
[1e-4, 0.9] x [0.1, 15] x [1e-4, 0.9] x [0.05, 2] x [-0.99, 0.99]. -/
theorem C6_param_bounds
    (minimize : ((ℝ×ℝ×ℝ×ℝ×ℝ) → ℝ) → (ℝ×ℝ×ℝ×ℝ×ℝ) → List (ℝ × ℝ) → (ℝ×ℝ×ℝ×ℝ×ℝ) × Bool)
    (hmin : MinimizeSpec minimize) (brentq : (ℝ → ℝ) → ℝ → ℝ → Option ℝ)
    (nodes weights : List ℝ) (pts : List VolPoint) (S r q : ℝ) (quadFail : Bool)
    (res : CalibrationResult)
    (h : calibrate minimize brentq nodes weights pts S r q quadFail = Except.ok res) :
    (1e-4 ≤ res.v0 ∧ res.v0 ≤ 0.9) ∧ (0.1 ≤ res.kappa ∧ res.kappa ≤ 15) ∧
      (1e-4 ≤ res.theta ∧ res.theta ≤ 0.9) ∧ (0.05 ≤ res.sigma_v ∧ res.sigma_v ≤ 2) ∧
      (-0.99 ≤ res.rho ∧ res.rho ≤ 0.99) := by
  unfold calibrate at h
  split at h
  · exact absurd h (by simp)
  · rw [Except.ok.injEq] at h
    subst h
    exact hmin _ _

/-- Witness for C6 (amended) with a contract-satisfying optimizer on five
points. -/
theorem C6_param_bounds_witness :
    (1e-4 ≤ resConst.v0 ∧ resConst.v0 ≤ 0.9) ∧ (0.1 ≤ resConst.kappa ∧ resConst.kappa ≤ 15) ∧
      (1e-4 ≤ resConst.theta ∧ resConst.theta ≤ 0.9) ∧
      (0.05 ≤ resConst.sigma_v ∧ resConst.sigma_v ≤ 2) ∧
      (-0.99 ≤ resConst.rho ∧ resConst.rho ≤ 0.99) :=
  C6_param_bounds minimizeConst minimizeConst_spec brentqNone [] [] pts5 1 0 0 false
    resConst calibrate_resConst

/-- Claim C6 (counterexample): with the open-interval reading the claim is
false: an optimizer that reports a point on the boundary of the box (a
legitimate output of the projected L-BFGS-B method) produces a calibration
result with rho = -0.99 exactly. -/
theorem C6_counterexample :
    ¬ (∀ minimize, MinimizeSpec minimize →
        ∀ brentq nodes weights (pts : List VolPoint) S r q quadFail res,
          calibrate minimize brentq nodes weights pts S r q quadFail = Except.ok res →
          (1e-4 < res.v0 ∧ res.v0 < 0.9) ∧ (0.1 < res.kappa ∧ res.kappa < 15) ∧
            (1e-4 < res.theta ∧ res.theta < 0.9) ∧ (0.05 < res.sigma_v ∧ res.sigma_v < 2) ∧
            (-0.99 < res.rho ∧ res.rho < 0.99)) := by
  intro hclaim
  have h := hclaim minimizeCorner minimizeCorner_spec brentqNone [] [] pts5 1 0 0 false
    resCorner calibrate_resCorner
  have hrho : resCorner.rho = -0.99 := rfl
  have h2 := h.2.2.2.2.1
  rw [hrho] at h2
  exact absurd h2 (lt_irrefl _)

/-- Claim C5 (amended): the calibration objective equals the weighted sum of
per-point contributions (squared vol error for points where the model
resolves a valid vol, weight times the fixed 0.25 penalty otherwise) divided
by the number of resolved points (1 if none) — not by the total number of
market points. -/
theorem C5_objective_formula (brentq : (ℝ → ℝ) → ℝ → ℝ → Option ℝ)
    (nodes weights : List ℝ) (pts : List VolPoint) (S r q : ℝ) (quadFail : Bool)
    (x : ℝ × ℝ × ℝ × ℝ × ℝ) :
    objective brentq nodes weights pts S r q quadFail x
      = (pts.map (pointContribution brentq nodes weights S r q quadFail x)).sum
        / ((max (pts.countP (pointResolved brentq nodes weights S r q quadFail x)) 1 : ℕ) : ℝ) := by
  unfold objective
  rw [objective_foldl]
  norm_num

/-- Claim C5 (counterexample): on five `T = 0` market points of weight 1 —
each of which deterministically fails to resolve — the code's objective is
`(5 * 0.25) / max(0, 1) = 1.25`, while the weighted mean-squared error over
the market points described by the claim is `(5 * 0.25) / 5 = 0.25`. -/
theorem C5_counterexample :
    ¬ (∀ brentq nodes weights (pts : List VolPoint) S r q quadFail x,
        objective brentq nodes weights pts S r q quadFail x
          = specObjective brentq nodes weights pts S r q quadFail x) := by
  intro hclaim
  have h := hclaim brentqNone [] [] ptsT0 1 0 0 false (1/25, 2, 1/25, 2/5, -(7/10))
  have hc : pointContribution brentqNone [] [] 1 0 0 false (1/25, 2, 1/25, 2/5, -(7/10)) ptT0
      = 1/4 := by
    unfold pointContribution
    simp only [show ptT0.T = (0:ℝ) from rfl, show ptT0.K = (1:ℝ) from rfl,
      show ptT0.weight = (1:ℝ) from rfl, heston_iv_T0]
    norm_num
  have hmap : ptsT0.map (pointContribution brentqNone [] [] 1 0 0 false
      (1/25, 2, 1/25, 2/5, -(7/10))) = List.replicate 5 (1/4 : ℝ) := by
    rw [show ptsT0 = List.replicate 5 ptT0 from rfl, List.map_replicate, hc]
  have hres0 : ptsT0.countP (pointResolved brentqNone [] [] 1 0 0 false
      (1/25, 2, 1/25, 2/5, -(7/10))) = 0 := by
    rw [List.countP_eq_zero]
    intro pt hpt
    have heq : pt = ptT0 := List.eq_of_mem_replicate hpt
    subst heq
    unfold pointResolved
    simp only [show ptT0.T = (0:ℝ) from rfl, show ptT0.K = (1:ℝ) from rfl, heston_iv_T0]
    simp
  have hobj : objective brentqNone [] [] ptsT0 1 0 0 false (1/25, 2, 1/25, 2/5, -(7/10))
      = 5/4 := by
    unfold objective
    rw [objective_foldl, hres0, hmap, List.sum_replicate]
    norm_num
  have hspec : specObjective brentqNone [] [] ptsT0 1 0 0 false (1/25, 2, 1/25, 2/5, -(7/10))
      = 1/4 := by
    unfold specObjective
    rw [hmap, List.sum_replicate, show ptsT0.length = 5 from rfl]
    norm_num
  rw [hobj, hspec] at h
  norm_num at h

/-- Claim C9: `generate_surface` called with 20 strikes and 8 maturities
returns an implied-vol grid of exactly 8 rows of 20 entries, every entry a
numeric vol or the explicit missing marker `none`; entry (i, j) is exactly
the independent `heston_iv` evaluation at the grid node (maturity i,
strike j), never interpolated from neighbouring nodes. -/
theorem C9_surface_shape (brentq : (ℝ → ℝ) → ℝ → ℝ → Option ℝ) (nodes weights : List ℝ)
    (S r q v0 kappa theta sigma_v rho : ℝ) (quadFail : Bool) :
    (generate_surface brentq nodes weights S r q v0 kappa theta sigma_v rho quadFail
        20 8).implied_vols.length = 8
      ∧ (∀ row ∈ (generate_surface brentq nodes weights S r q v0 kappa theta sigma_v rho
          quadFail 20 8).implied_vols, row.length = 20)
      ∧ ∀ (i : Fin 8) (j : Fin 20),
          ((generate_surface brentq nodes weights S r q v0 kappa theta sigma_v rho quadFail
              20 8).implied_vols.getD i.val []).getD j.val none
            = (heston_iv brentq nodes weights S ((linspace 0.7 1.3 20).getD j.val 0 * S)
                  ((linspace (1/12) 2 8).getD i.val 0) r q v0 kappa theta sigma_v rho
                  quadFail).map (fun iv => round_to 4 (iv * 100)) := by
  refine ⟨?_, ?_, ?_⟩
  · simp only [generate_surface]
    rw [List.length_map, linspace_length]
  · intro row hrow
    simp only [generate_surface] at hrow
    rw [List.mem_map] at hrow
    obtain ⟨T, hT, hrow⟩ := hrow
    rw [← hrow, List.length_map, List.length_map, linspace_length]
  · intro i j
    simp only [generate_surface]
    have hi : i.val < (linspace (1/12) 2 8).length := by
      rw [linspace_length]
      exact i.isLt
    have hj : j.val < ((linspace 0.7 1.3 20).map fun m => m * S).length := by
      rw [List.length_map, linspace_length]
      exact j.isLt
    have hj2 : j.val < (linspace 0.7 1.3 20).length := by
      rw [linspace_length]
      exact j.isLt
    rw [getD_map_of_lt _ _ i.val 0 [] hi, getD_map_of_lt _ _ j.val 0 none hj,
      getD_map_of_lt _ _ j.val 0 0 hj2]

end DeskView
